import Mathlib

/-!
Shallow embedding of the rqda-pymod document-management core
(`src/core/document_manager.py`, `src/db/connection.py`, `src/app.py`).

The single table `files` (see `DatabaseManager.create_tables`) is modelled as a
list of `FileRow` together with the `AUTO_INCREMENT` counter.  Timestamps
(`date_created DEFAULT CURRENT_TIMESTAMP`, `date_modified ... ON UPDATE
CURRENT_TIMESTAMP`) are natural numbers supplied as an explicit `now` argument.
`NULL`-able columns (`owner`, `memo`) are `Option String`.
-/

namespace Rqda

/-- A row of the `files` table, fields in schema/`SELECT *` column order:
`id, name, content, date_created, date_modified, owner, memo, size`. -/
structure FileRow where
  id : Nat
  name : String
  content : String
  date_created : Nat
  date_modified : Nat
  owner : Option String
  memo : Option String
  size : Nat
deriving DecidableEq

/-- The database state: the rows of `files` plus the AUTO_INCREMENT counter. -/
structure FilesDB where
  rows : List FileRow
  nextId : Nat
deriving DecidableEq

/-- A row of the DataFrame produced by `DocumentManager.get_all_files`
(columns `id, name, date_created, size, has_memo`; `size` already rendered
by `_format_file_size`). -/
structure SummaryRow where
  id : Nat
  name : String
  date_created : Nat
  size : String
  has_memo : String
deriving DecidableEq

/-- A row of the DataFrame produced by `DocumentManager.search_files`
(columns `id, name, date_created, size`; `size` rendered by
`_format_file_size`). -/
structure SearchRow where
  id : Nat
  name : String
  date_created : Nat
  size : String
deriving DecidableEq

/-! ### `DocumentManager._format_file_size`

The Python code divides a nonnegative integer repeatedly by the float
`1024.0` and prints the result with one decimal place.  All intermediate
values are of the form `size / 2 ^ (10 * i)`, which doubles (binary
floating point) represent exactly for every `size < 2 ^ 53` — in particular
on the whole range of the `size INT` column — so the float computation is
modelled exactly by rational arithmetic, and the `.1f` rendering by correct
rounding (ties to even, as IEEE printf-style formatting does) of the exact
value. -/

/-- The unit list `size_names = ["B", "KB", "MB", "GB"]`. -/
def size_names : List String := ["B", "KB", "MB", "GB"]

/-- Exact division of a rational by 1024 (the effect of `size_bytes /= 1024.0`
on the exactly-represented values), written with `mkRat` so that it reduces
inside the kernel; `divBy1024_eq` below shows it is division by 1024. -/
def divBy1024 (v : ℚ) : ℚ :=
  mkRat v.num (v.den * 1024)

/-- The `while size_bytes >= 1024 and i < len(size_names) - 1` loop of
`_format_file_size`.  The guard forces `i < 3` and every iteration
increments `i`, so 3 units of fuel always suffice; the fuel argument only
makes the recursion structural. -/
def format_loop : Nat → ℚ → Nat → ℚ × Nat
  | 0, v, i => (v, i)
  | fuel + 1, v, i =>
    if 1024 ≤ v ∧ i < size_names.length - 1 then format_loop fuel (divBy1024 v) (i + 1)
    else (v, i)

/-- `10 * q` rounded to the nearest integer, ties to even (the rounding used
when printf-style formatting cuts an exactly-represented value to one
decimal).  Written on numerator and denominator so that it reduces inside
the kernel: `f` is `⌊10 q⌋` and `r / d` the fractional part. -/
def roundTenthsHalfEven (q : ℚ) : ℤ :=
  let n : ℤ := 10 * q.num
  let d : ℤ := (q.den : ℤ)
  let f : ℤ := Int.fdiv n d
  let r : ℤ := n - f * d
  if 2 * r < d then f
  else if d < 2 * r then f + 1
  else if f % 2 = 0 then f else f + 1

/-- Python's `f"{v:.1f}"` for the nonnegative exactly-represented values the
formatter produces: one digit after the decimal point. -/
def formatOneDecimal (q : ℚ) : String :=
  toString ((roundTenthsHalfEven q).toNat / 10) ++ "." ++
    toString ((roundTenthsHalfEven q).toNat % 10)

/-- `DocumentManager._format_file_size`. -/
def format_file_size (size_bytes : Nat) : String :=
  if size_bytes = 0 then "0B"
  else
    let r := format_loop 3 (size_bytes : ℚ) 0
    formatOneDecimal r.1 ++ size_names.getD r.2 ""

/-! ### MySQL `LIKE` on a case-insensitive (`_ci`) collation

`search_files` runs `name LIKE :t OR content LIKE :t` with
`t = '%' + search_term + '%'` (no escaping of the user term).  `LIKE`
pattern semantics: `%` matches any sequence of characters, `_` matches any
single character, `\` escapes the following pattern character; everything
else matches literally.  The table's `utf8mb4` default collation compares
case-insensitively, modelled by lower-casing both sides. -/

/-- Executable semantics of the MySQL `LIKE` pattern match (pattern on the
left, subject on the right), case-sensitively; recursion is structural on
the pattern, with `%` quantifying over the suffixes (`List.tails`) of the
subject. -/
def likeMatch : List Char → List Char → Bool
  | [], s => s.isEmpty
  | '%' :: ps, s => s.tails.any fun s2 => likeMatch ps s2
  | '_' :: ps, s =>
    match s with
    | [] => false
    | _ :: s2 => likeMatch ps s2
  | '\\' :: q :: ps, s =>
    match s with
    | [] => false
    | d :: s2 => (q == d) && likeMatch ps s2
  | q :: ps, s =>
    match s with
    | [] => false
    | d :: s2 => (q == d) && likeMatch ps s2

/-- `subject LIKE pat` under the case-insensitive collation. -/
def sqlLike (pat subject : String) : Bool :=
  likeMatch (pat.toList.map Char.toLower) (subject.toList.map Char.toLower)

/-! ### The SQL `ORDER BY date_created DESC` -/

/-- The `ORDER BY date_created DESC` comparison: `a` may come before `b`
iff `b.date_created ≤ a.date_created`. -/
def dateDescRel (a b : FileRow) : Prop :=
  b.date_created ≤ a.date_created

instance : DecidableRel dateDescRel :=
  fun a b => inferInstanceAs (Decidable (b.date_created ≤ a.date_created))

/-- `ORDER BY date_created DESC`, modelled as a sort by `dateDescRel`. -/
def orderByDateDesc (rows : List FileRow) : List FileRow :=
  List.insertionSort dateDescRel rows

/-! ### `DocumentManager` operations -/

/-- `DocumentManager.create_file`: computes `size = len(content.encode('utf-8'))`,
inserts `(name, content, owner, memo, size)` (timestamps filled by the
schema defaults with the current time `now`, `id` by AUTO_INCREMENT) and
returns `lastrowid`. -/
def create_file (db : FilesDB) (now : Nat) (name content : String)
    (owner memo : Option String) : Nat × FilesDB :=
  let size := content.utf8ByteSize
  let row : FileRow :=
    { id := db.nextId, name := name, content := content,
      date_created := now, date_modified := now,
      owner := owner, memo := memo, size := size }
  (db.nextId, { rows := db.rows ++ [row], nextId := db.nextId + 1 })

/-- `DocumentManager.get_file`: `SELECT * FROM files WHERE id = :file_id`,
`fetchone()`; the Python dict built from the row carries exactly the
`FileRow` fields (keys `id, name, content, date_created, date_modified,
owner, memo, size` from columns 0-7), `None` when no row matches. -/
def get_file (db : FilesDB) (file_id : Nat) : Option FileRow :=
  db.rows.find? fun r => r.id == file_id

/-- The projection applied by `get_all_files`: columns
`id, name, date_created, size, has_memo` with
`has_memo = CASE WHEN memo IS NOT NULL THEN 'Yes' ELSE 'No' END` and
`size` then rendered by `_format_file_size`. -/
def summaryOfRow (r : FileRow) : SummaryRow :=
  { id := r.id, name := r.name, date_created := r.date_created,
    size := format_file_size r.size,
    has_memo := if r.memo.isSome then "Yes" else "No" }

/-- `DocumentManager.get_all_files`: select all rows
`ORDER BY date_created DESC`, project, and format sizes; with zero rows the
result is the empty DataFrame with the same columns (here: the empty list
of `SummaryRow`). -/
def get_all_files (db : FilesDB) : List SummaryRow :=
  (orderByDateDesc db.rows).map summaryOfRow

/-- `DocumentManager.update_file`: builds `SET` clauses only for the
supplied arguments (`size` recomputed exactly when `content` is supplied),
returns `False` without touching the database when none is supplied,
otherwise runs one `UPDATE ... WHERE id = :file_id` (which also triggers
the schema's `ON UPDATE CURRENT_TIMESTAMP` on `date_modified`) and returns
`rowcount > 0`. -/
def update_file (db : FilesDB) (now : Nat) (file_id : Nat)
    (name content memo : Option String) : Bool × FilesDB :=
  if name.isNone && content.isNone && memo.isNone then
    (false, db)
  else
    (db.rows.any fun r => r.id == file_id,
     { db with
        rows := db.rows.map fun r =>
          if r.id == file_id then
            { r with
              name := name.getD r.name,
              content := content.getD r.content,
              size := match content with
                | some c => c.utf8ByteSize
                | none => r.size,
              memo := match memo with
                | some m => some m
                | none => r.memo,
              date_modified := now }
          else r })

/-- `DocumentManager.delete_file`: `DELETE FROM files WHERE id = :file_id`,
returns `rowcount > 0`. -/
def delete_file (db : FilesDB) (file_id : Nat) : Bool × FilesDB :=
  (db.rows.any fun r => r.id == file_id,
   { db with rows := db.rows.filter fun r => !(r.id == file_id) })

/-- The projection applied by `search_files`: columns
`id, name, date_created, size` with `size` rendered by
`_format_file_size`. -/
def searchRowOfRow (r : FileRow) : SearchRow :=
  { id := r.id, name := r.name, date_created := r.date_created,
    size := format_file_size r.size }

/-- `DocumentManager.search_files`:
`WHERE name LIKE :t OR content LIKE :t ORDER BY date_created DESC` with
`t = f'%\x7bsearch_term\x7d%'`, then project and format sizes. -/
def search_files (db : FilesDB) (search_term : String) : List SearchRow :=
  (orderByDateDesc (db.rows.filter fun r =>
      sqlLike ("%" ++ search_term ++ "%") r.name ||
      sqlLike ("%" ++ search_term ++ "%") r.content)).map searchRowOfRow

/-! ### Connection-scoped unit of work (`db/connection.py`)

`DatabaseManager.get_session` and the `with self.db.engine.connect()`
blocks of `DocumentManager` share the same shape: run the statement(s);
on success commit, on any exception roll the uncommitted work back and
re-raise.  A statement is modelled as a function from the current
committed state to either a value plus the new state, or an error. -/

/-- The unit of work: commit the statement's state on success; on failure
discard its work (rollback), keep the original state and propagate the
error. -/
def run_in_connection {α : Type} (db : FilesDB)
    (stmt : FilesDB → Except String (α × FilesDB)) :
    Except String α × FilesDB :=
  match stmt db with
  | Except.ok (a, db2) => (Except.ok a, db2)
  | Except.error e => (Except.error e, db)

/-! ### The upload handler (`app.py`, `upload_files`) -/

/-- One entry of `input.file_upload()`: the file's `name`, and the outcome
of `file_info["datapath"].read_text(encoding='utf-8')` (which can raise,
e.g. on bytes that are not valid UTF-8). -/
structure UploadFile where
  name : String
  read_result : Except String String

/-- A `ui.notification_show` call: its message and its `type=` argument. -/
structure Notice where
  message : String
  ntype : String
deriving DecidableEq

/-- The `upload_files` handler body: iterate over the files in list order;
for each, try reading the content and `doc_manager.create_file` (both can
raise, so the database step is a fallible `create` parameter), showing a
success notification, and on any exception show an error notification and
continue with the next file. -/
def upload_files
    (create : FilesDB → String → String → Except String (Nat × FilesDB)) :
    FilesDB → List UploadFile → FilesDB × List Notice
  | db, [] => (db, [])
  | db, f :: fs =>
    match (match f.read_result with
      | Except.error e => Except.error e
      | Except.ok content => create db f.name content : Except String (Nat × FilesDB)) with
    | Except.ok (_, db2) =>
      let rest := upload_files create db2 fs
      (rest.1,
       { message := "Successfully uploaded: " ++ f.name, ntype := "success" } :: rest.2)
    | Except.error e =>
      let rest := upload_files create db fs
      (rest.1,
       { message := "Error uploading " ++ f.name ++ ": " ++ e, ntype := "error" } :: rest.2)

/-! ### Spec-side definitions (for invariants and refinement statements) -/

/-- Spec invariant: every stored `size` equals the UTF-8 byte length of the
stored `content`. -/
def SizeInv (db : FilesDB) : Prop :=
  ∀ r ∈ db.rows, r.size = r.content.utf8ByteSize

/-- AUTO_INCREMENT integrity: every stored `id` is below the counter. -/
def IdInv (db : FilesDB) : Prop :=
  ∀ r ∈ db.rows, r.id < db.nextId

/-- Spec wording for search: `needle` occurs in `haystack` as a
case-insensitive substring. -/
def containsCI (haystack needle : String) : Bool :=
  decide (needle.toList.map Char.toLower <:+: haystack.toList.map Char.toLower)

/-- The search term uses no MySQL `LIKE` wildcard or escape character. -/
def NoWildcard (t : String) : Prop :=
  ∀ c ∈ t.toList, c ≠ '%' ∧ c ≠ '_' ∧ c ≠ '\\'

/-- Search as the spec words it: exactly the rows whose name or content
contains the term as a case-insensitive substring, in the list ordering. -/
def search_files_spec (db : FilesDB) (term : String) : List SearchRow :=
  (orderByDateDesc (db.rows.filter fun r =>
      containsCI r.name term || containsCI r.content term)).map searchRowOfRow

/-- Spec wording for the size formatter: the number of divisions by 1024 is
the number of times 1024 fits while a larger unit remains. -/
def unitIndex (n : Nat) : Nat :=
  if n < 1024 then 0
  else if n < 1024 ^ 2 then 1
  else if n < 1024 ^ 3 then 2
  else 3

instance (db : FilesDB) : Decidable (SizeInv db) :=
  inferInstanceAs (Decidable (∀ r ∈ db.rows, r.size = r.content.utf8ByteSize))

instance (db : FilesDB) : Decidable (IdInv db) :=
  inferInstanceAs (Decidable (∀ r ∈ db.rows, r.id < db.nextId))

instance (t : String) : Decidable (NoWildcard t) :=
  inferInstanceAs (Decidable (∀ c ∈ t.toList, c ≠ '%' ∧ c ≠ '_' ∧ c ≠ '\\'))

instance : IsTotal FileRow dateDescRel :=
  ⟨fun a b => Nat.le_total b.date_created a.date_created⟩

instance : IsTrans FileRow dateDescRel :=
  ⟨fun _ _ _ h1 h2 => Nat.le_trans h2 h1⟩

/-- A consistent sample row (UTF-8 length of "hello" is 5). -/
def sampleRow : FileRow :=
  { id := 1, name := "abc", content := "hello", date_created := 5,
    date_modified := 5, owner := none, memo := none, size := 5 }

/-- A consistent one-row sample database. -/
def sampleDB : FilesDB :=
  { rows := [sampleRow], nextId := 2 }

/-- A `create` step that always fails, modelling a database error inside
the upload loop. -/
def uploadCreateFail : FilesDB → String → String → Except String (Nat × FilesDB) :=
  fun _ _ _ => Except.error "db down"

/-- A sample upload whose content reads successfully. -/
def uploadF0 : UploadFile :=
  { name := "a.txt", read_result := Except.ok "hi" }

/-- A second sample upload whose content reads successfully. -/
def uploadF1 : UploadFile :=
  { name := "b.txt", read_result := Except.ok "yo" }

/-- A row whose name "abc" matches `LIKE '%a_c%'` although it does not
contain "a_c" as a substring. -/
def c6Row : FileRow :=
  { id := 1, name := "abc", content := "q", date_created := 0,
    date_modified := 0, owner := none, memo := none, size := 1 }

/-- The one-row database exhibiting the `LIKE`-wildcard behaviour of
`search_files`. -/
def c6DB : FilesDB :=
  { rows := [c6Row], nextId := 2 }

/-! ## Theorems -/

/-- C10: calling `update_file` with `name`, `content` and `memo` all absent
returns `False` without executing any write statement: the result is
exactly `(false, db)` for every database state, even when a row with the
given id exists. -/
theorem c10_update_without_fields_is_noop (db : FilesDB) (now file_id : Nat) :
    update_file db now file_id none none none = (false, db) := rfl

/-- C5: after `delete_file id`, `get_file id` returns the explicit absence
value `none`; a second `delete_file id` returns `false`; and `delete_file`
returns `true` exactly when a row with that id existed (and was removed). -/
theorem c5_delete_semantics (db : FilesDB) (file_id : Nat) :
    get_file (delete_file db file_id).2 file_id = none ∧
    (delete_file (delete_file db file_id).2 file_id).1 = false ∧
    ((delete_file db file_id).1 = true ↔ ∃ r ∈ db.rows, r.id = file_id) := by
  refine ⟨?_, ?_, ?_⟩
  · simp only [get_file]
    rw [List.find?_eq_none]
    intro r hr
    simp only [delete_file, List.mem_filter, Bool.not_eq_eq_eq_not, Bool.not_true] at hr
    simp [hr.2]
  · simp only [delete_file]
    rw [List.any_eq_false]
    intro r hr
    simp only [List.mem_filter, Bool.not_eq_eq_eq_not, Bool.not_true] at hr
    simp [hr.2]
  · simp [delete_file, List.any_eq_true]

/-- C5 witness: the delete/get/delete behaviour at a concrete one-row
database. -/
theorem c5_delete_semantics_witness :
    get_file (delete_file sampleDB 1).2 1 = none ∧
    (delete_file (delete_file sampleDB 1).2 1).1 = false ∧
    (delete_file sampleDB 1).1 = true :=
  ⟨(c5_delete_semantics sampleDB 1).1, (c5_delete_semantics sampleDB 1).2.1,
   (c5_delete_semantics sampleDB 1).2.2.mpr ⟨sampleRow, by decide, by decide⟩⟩

/-- C8: a connection-scoped unit of work commits the statement's state on
success, and on failure rolls back (the committed state is unchanged)
before the error is propagated to the caller. -/
theorem c8_unit_of_work_atomic {α : Type} (db : FilesDB)
    (stmt : FilesDB → Except String (α × FilesDB)) :
    (∀ e, stmt db = Except.error e →
      run_in_connection db stmt = (Except.error e, db)) ∧
    (∀ a db2, stmt db = Except.ok (a, db2) →
      run_in_connection db stmt = (Except.ok a, db2)) := by
  refine ⟨fun e he => ?_, fun a db2 hok => ?_⟩
  · simp [run_in_connection, he]
  · simp [run_in_connection, hok]

/-- C8 witness: a failing statement leaves the concrete database unchanged
and propagates its error. -/
theorem c8_unit_of_work_atomic_witness :
    run_in_connection sampleDB
        (fun _ => (Except.error "boom" : Except String (Nat × FilesDB))) =
      (Except.error "boom", sampleDB) :=
  (c8_unit_of_work_atomic sampleDB _).1 "boom" rfl

/-- C9: the upload handler emits exactly one notification per file, in list
order, and when the read-or-create step of the head file fails the handler
reports it as an error notification and processes the remaining files
exactly as it would have on their own (the failure does not block the
batch). -/
theorem c9_upload_failures_independent
    (create : FilesDB → String → String → Except String (Nat × FilesDB))
    (db : FilesDB) (f : UploadFile) (fs : List UploadFile) (e : String)
    (hf : (match f.read_result with
      | Except.error err => Except.error err
      | Except.ok content => create db f.name content)
        = (Except.error e : Except String (Nat × FilesDB))) :
    (∀ db2 files, (upload_files create db2 files).2.length = files.length) ∧
    upload_files create db (f :: fs) =
      ((upload_files create db fs).1,
       { message := "Error uploading " ++ f.name ++ ": " ++ e, ntype := "error" }
         :: (upload_files create db fs).2) := by
  constructor
  · intro db2 files
    induction files generalizing db2 with
    | nil => rfl
    | cons g gs ih =>
      rw [upload_files]
      rcases hg : (match g.read_result with
        | Except.error err => Except.error err
        | Except.ok content => create db2 g.name content :
          Except String (Nat × FilesDB)) with e2 | p
      · simp [hg, ih]
      · rcases p with ⟨a, db3⟩
        simp [hg, ih]
  · rw [upload_files, hf]

/-- C9 witness: a database failure on the first of two files is reported as
an error notification and the second file is still processed. -/
theorem c9_upload_failures_independent_witness :
    upload_files uploadCreateFail sampleDB [uploadF0, uploadF1] =
      ((upload_files uploadCreateFail sampleDB [uploadF1]).1,
       { message := "Error uploading a.txt: db down", ntype := "error" }
         :: (upload_files uploadCreateFail sampleDB [uploadF1]).2) :=
  (c9_upload_failures_independent uploadCreateFail sampleDB uploadF0 [uploadF1]
    "db down" rfl).2

/-- C1: `create_file` stores `size = len(content.encode('utf-8'))` with the
inserted row and `update_file` recomputes it whenever `content` is
supplied, so both operations preserve the invariant that every stored
`size` equals the UTF-8 byte length of the current `content`, and after a
create or a content update the affected row's `size` is the UTF-8 byte
length of the supplied content. -/
theorem c1_size_is_utf8_length (db : FilesDB) (hdb : SizeInv db) :
    (∀ now name content owner memo,
      SizeInv (create_file db now name content owner memo).2) ∧
    (∀ now file_id nm cm mm,
      SizeInv (update_file db now file_id nm cm mm).2) ∧
    (∀ now name content owner memo,
      ∃ r, (create_file db now name content owner memo).2.rows.getLast? = some r ∧
        r.content = content ∧ r.size = content.utf8ByteSize) ∧
    (∀ now file_id nm mm c,
      ∀ r ∈ (update_file db now file_id nm (some c) mm).2.rows,
        r.id = file_id → r.content = c ∧ r.size = c.utf8ByteSize) := by
  refine ⟨?_, ?_, ?_, ?_⟩
  · intro now name content owner memo r hr
    simp only [create_file, List.mem_append, List.mem_singleton] at hr
    rcases hr with hr | hr
    · exact hdb r hr
    · subst hr; rfl
  · intro now file_id nm cm mm r hr
    by_cases hcond : (nm.isNone && cm.isNone && mm.isNone) = true
    · simp only [update_file, hcond, if_pos] at hr
      exact hdb r hr
    · simp only [update_file, hcond, if_neg, Bool.false_eq_true, not_false_iff,
        List.mem_map] at hr
      rcases hr with ⟨r0, hr0, hmap⟩
      by_cases hid : (r0.id == file_id) = true
      · rcases cm with _ | c
        · simp only [hid, if_pos] at hmap
          subst hmap
          exact hdb r0 hr0
        · simp only [hid, if_pos] at hmap
          subst hmap
          rfl
      · simp only [hid, if_neg, Bool.false_eq_true, not_false_iff] at hmap
        subst hmap
        exact hdb r0 hr0
  · intro now name content owner memo
    refine ⟨⟨db.nextId, name, content, now, now, owner, memo,
      content.utf8ByteSize⟩, ?_, rfl, rfl⟩
    simp [create_file, List.getLast?_concat]
  · intro now file_id nm mm c r hr hrid
    simp only [update_file, Option.isNone_some, Bool.and_false, Bool.false_and,
      Bool.false_eq_true, if_neg, not_false_iff, List.mem_map] at hr
    rcases hr with ⟨r0, hr0, hmap⟩
    by_cases hid : (r0.id == file_id) = true
    · simp only [hid, if_pos] at hmap
      subst hmap
      exact ⟨rfl, rfl⟩
    · simp only [hid, if_neg, Bool.false_eq_true, not_false_iff] at hmap
      subst hmap
      exact absurd hrid (by simpa using hid)

/-- C1 witness: the invariant after a concrete create and a concrete
content update of the sample database (multi-byte characters included). -/
theorem c1_size_is_utf8_length_witness :
    SizeInv (create_file sampleDB 9 "new.txt" "héllo" none (some "m")).2 ∧
    SizeInv (update_file sampleDB 9 1 none (some "wörld") none).2 :=
  ⟨(c1_size_is_utf8_length sampleDB (by decide)).1 9 "new.txt" "héllo" none (some "m"),
   (c1_size_is_utf8_length sampleDB (by decide)).2.1 9 1 none (some "wörld") none⟩

/-- C3: under AUTO_INCREMENT integrity, `create_file` followed by
`get_file` on the returned id yields a record whose `name`, `content`,
`owner` and `memo` equal the values supplied to `create_file`. -/
theorem c3_create_then_get_roundtrip (db : FilesDB) (now : Nat)
    (name content : String) (owner memo : Option String) (hdb : IdInv db) :
    ∃ rec : FileRow,
      get_file (create_file db now name content owner memo).2
          (create_file db now name content owner memo).1 = some rec ∧
      rec.name = name ∧ rec.content = content ∧
      rec.owner = owner ∧ rec.memo = memo := by
  refine ⟨⟨db.nextId, name, content, now, now, owner, memo,
    content.utf8ByteSize⟩, ?_, rfl, rfl, rfl, rfl⟩
  simp only [get_file, create_file, List.find?_append]
  rw [List.find?_eq_none.mpr, Option.none_or]
  · simp
  · intro r hr
    simp only [beq_iff_eq]
    exact Nat.ne_of_lt (hdb r hr)

/-- C3 witness: round-trip through the concrete sample database. -/
theorem c3_create_then_get_roundtrip_witness :
    IdInv sampleDB ∧
    ∃ rec : FileRow,
      get_file (create_file sampleDB 9 "n.txt" "body" (some "me") none).2
          (create_file sampleDB 9 "n.txt" "body" (some "me") none).1 = some rec ∧
      rec.name = "n.txt" ∧ rec.content = "body" ∧
      rec.owner = some "me" ∧ rec.memo = none :=
  ⟨by decide, c3_create_then_get_roundtrip sampleDB 9 "n.txt" "body" (some "me") none
    (by decide)⟩

/-- C4: a content-only update on an existing id returns `true`, keeps the
AUTO_INCREMENT counter, and rewrites the table row-for-row: every row keeps
its `id`, `name`, `owner`, `memo` and `date_created`; rows with a
different id are completely unchanged; the row with the given id gets the
new content, its recomputed UTF-8 size, and the update timestamp. -/
theorem c4_update_content_only_frame (db : FilesDB) (now file_id : Nat)
    (c : String) (hex : ∃ r ∈ db.rows, r.id = file_id) :
    (update_file db now file_id none (some c) none).1 = true ∧
    (update_file db now file_id none (some c) none).2.nextId = db.nextId ∧
    List.Forall₂
      (fun r r2 : FileRow =>
        r2.id = r.id ∧ r2.name = r.name ∧ r2.owner = r.owner ∧
        r2.memo = r.memo ∧ r2.date_created = r.date_created ∧
        (r.id ≠ file_id → r2 = r) ∧
        (r.id = file_id →
          r2.content = c ∧ r2.size = c.utf8ByteSize ∧ r2.date_modified = now))
      db.rows (update_file db now file_id none (some c) none).2.rows := by
  refine ⟨?_, rfl, ?_⟩
  · rcases hex with ⟨r, hr, hrid⟩
    simp only [update_file, Option.isNone_some, Bool.and_false, Bool.false_and,
      Bool.false_eq_true, if_neg, not_false_iff]
    rw [List.any_eq_true]
    exact ⟨r, hr, by simp [hrid]⟩
  · simp only [update_file, Option.isNone_some, Bool.and_false, Bool.false_and,
      Bool.false_eq_true, if_neg, not_false_iff]
    rw [List.forall₂_map_right_iff, List.forall₂_same]
    intro r hr
    by_cases hid : r.id = file_id
    · simp [hid]
    · simp [hid]

/-- C4 witness: the frame property at the concrete sample database. -/
theorem c4_update_content_only_frame_witness :
    (update_file sampleDB 9 1 none (some "xy") none).1 = true ∧
    (update_file sampleDB 9 1 none (some "xy") none).2.nextId = sampleDB.nextId ∧
    List.Forall₂
      (fun r r2 : FileRow =>
        r2.id = r.id ∧ r2.name = r.name ∧ r2.owner = r.owner ∧
        r2.memo = r.memo ∧ r2.date_created = r.date_created ∧
        (r.id ≠ 1 → r2 = r) ∧
        (r.id = 1 →
          r2.content = "xy" ∧ r2.size = "xy".utf8ByteSize ∧ r2.date_modified = 9))
      sampleDB.rows (update_file sampleDB 9 1 none (some "xy") none).2.rows :=
  c4_update_content_only_frame sampleDB 9 1 "xy" ⟨sampleRow, by decide, by decide⟩

/-- C7: `get_all_files` returns one summary per stored row (a permutation
of the projections, so also equal length), sorted by creation time
descending, each summary carrying the row's id, name and creation time,
the human-readable rendering of its byte size, and a Yes/No memo flag; on
an empty table the result is the empty (but correctly-typed) list. -/
theorem c7_get_all_files_shape (db : FilesDB) :
    (get_all_files db).length = db.rows.length ∧
    (get_all_files db).Perm (db.rows.map summaryOfRow) ∧
    List.Sorted (fun a b : SummaryRow => b.date_created ≤ a.date_created)
      (get_all_files db) ∧
    (∀ s ∈ get_all_files db, ∃ r ∈ db.rows,
      s.id = r.id ∧ s.name = r.name ∧ s.date_created = r.date_created ∧
      s.size = format_file_size r.size ∧
      (s.has_memo = if r.memo.isSome then "Yes" else "No")) ∧
    (∀ n, get_all_files { rows := [], nextId := n } = []) := by
  have hperm := List.perm_insertionSort dateDescRel db.rows
  refine ⟨?_, ?_, ?_, ?_, fun n => rfl⟩
  · simp [get_all_files, orderByDateDesc, hperm.length_eq]
  · exact hperm.map summaryOfRow
  · have hs := List.sorted_insertionSort dateDescRel db.rows
    exact List.Pairwise.map summaryOfRow (fun a b h => h) hs
  · intro s hs
    simp only [get_all_files, orderByDateDesc, List.mem_map,
      List.mem_insertionSort] at hs
    rcases hs with ⟨r, hr, hmap⟩
    exact ⟨r, hr, by simp [← hmap, summaryOfRow]⟩

/-- C7 witness: the listing of the concrete sample database, and the empty
result on an empty table. -/
theorem c7_get_all_files_shape_witness :
    (get_all_files sampleDB).length = sampleDB.rows.length ∧
    (get_all_files sampleDB).Perm (sampleDB.rows.map summaryOfRow) ∧
    List.Sorted (fun a b : SummaryRow => b.date_created ≤ a.date_created)
      (get_all_files sampleDB) ∧
    get_all_files { rows := [], nextId := 7 } = [] :=
  ⟨(c7_get_all_files_shape sampleDB).1, (c7_get_all_files_shape sampleDB).2.1,
   (c7_get_all_files_shape sampleDB).2.2.1,
   (c7_get_all_files_shape sampleDB).2.2.2.2 7⟩

/-- `divBy1024` is exact division by 1024. -/
theorem divBy1024_eq (v : ℚ) : divBy1024 v = v / 1024 := by
  rw [divBy1024, Rat.mkRat_eq_divInt, Rat.divInt_eq_div]
  push_cast
  rw [← div_div, Rat.num_div_den]

/-- The loop exits as soon as the value is below 1024 or no larger unit
remains. -/
theorem format_loop_stop {fuel : Nat} {v : ℚ} {i : Nat}
    (h : ¬(1024 ≤ v ∧ i < 3)) : format_loop (fuel + 1) v i = (v, i) := by
  rw [format_loop, if_neg]
  simpa [size_names] using h

/-- One iteration of the loop divides by 1024 and moves to the next unit. -/
theorem format_loop_step {fuel : Nat} {v : ℚ} {i : Nat}
    (h : 1024 ≤ v) (hi : i < 3) :
    format_loop (fuel + 1) v i = format_loop fuel (divBy1024 v) (i + 1) := by
  rw [format_loop]
  have hc : 1024 ≤ v ∧ i < size_names.length - 1 := ⟨h, by simpa [size_names]⟩
  rw [if_pos hc]

/-- Closed form of the `_format_file_size` loop: starting from a positive
byte count `n` it performs exactly `unitIndex n` divisions, ending on the
magnitude `n / 1024 ^ unitIndex n`. -/
theorem format_loop_spec (n : Nat) (hn : 0 < n) :
    format_loop 3 (n : ℚ) 0 = ((n : ℚ) / 1024 ^ unitIndex n, unitIndex n) := by
  have cast_le : ∀ k : Nat, ((k : ℚ) ≤ (n : ℚ) ↔ k ≤ n) := fun k => Nat.cast_le
  by_cases hA : n < 1024
  · have hc : ¬((1024 : ℚ) ≤ (n : ℚ) ∧ (0 : ℕ) < 3) := by
      rintro ⟨h, -⟩
      have : (1024 : ℕ) ≤ n := by exact_mod_cast h
      omega
    rw [format_loop_stop hc]
    simp [unitIndex, hA]
  · have hA2 : (1024 : ℚ) ≤ (n : ℚ) := by exact_mod_cast Nat.le_of_not_lt hA
    rw [format_loop_step hA2 (by omega), divBy1024_eq]
    by_cases hB : n < 1024 ^ 2
    · have hc : ¬((1024 : ℚ) ≤ (n : ℚ) / 1024 ∧ (1 : ℕ) < 3) := by
        rintro ⟨h, -⟩
        rw [le_div_iff₀ (by norm_num : (0 : ℚ) < 1024)] at h
        have : (1024 * 1024 : ℕ) ≤ n := by exact_mod_cast h
        simp [pow_succ] at hB
        omega
      rw [format_loop_stop hc]
      simp only [unitIndex, if_neg hA, if_pos hB]
      norm_num
    · have hB2 : (1024 : ℚ) ≤ (n : ℚ) / 1024 := by
        rw [le_div_iff₀ (by norm_num : (0 : ℚ) < 1024)]
        have : (1024 * 1024 : ℕ) ≤ n := by
          have := Nat.le_of_not_lt hB
          simpa [pow_succ] using this
        exact_mod_cast this
      rw [format_loop_step hB2 (by omega), divBy1024_eq, div_div]
      by_cases hC : n < 1024 ^ 3
      · have hc : ¬((1024 : ℚ) ≤ (n : ℚ) / (1024 * 1024) ∧ (2 : ℕ) < 3) := by
          rintro ⟨h, -⟩
          rw [le_div_iff₀ (by norm_num : (0 : ℚ) < 1024 * 1024)] at h
          have : (1024 * (1024 * 1024) : ℕ) ≤ n := by exact_mod_cast h
          simp [pow_succ] at hC
          omega
        rw [format_loop_stop hc]
        simp only [unitIndex, if_neg hA, if_neg hB, if_pos hC]
        norm_num
      · have hC2 : (1024 : ℚ) ≤ (n : ℚ) / (1024 * 1024) := by
          rw [le_div_iff₀ (by norm_num : (0 : ℚ) < 1024 * 1024)]
          have : (1024 * (1024 * 1024) : ℕ) ≤ n := by
            have := Nat.le_of_not_lt hC
            simpa [pow_succ] using this
          exact_mod_cast this
        rw [format_loop_step hC2 (by omega), divBy1024_eq, div_div]
        rw [format_loop]
        simp only [unitIndex, if_neg hA, if_neg hB, if_neg hC]
        norm_num

/-- C2: `_format_file_size` maps 0 to `"0B"`, and any positive byte count
`n` to the magnitude `n / 1024 ^ i` rendered with one decimal place and
followed by the unit selected from `B/KB/MB/GB`, where `i` counts the
divisions by 1024 performed while the value stays at least 1024 and a
larger unit remains; in particular 1023, 1024 and 1048576 render as
claimed. -/
theorem c2_format_file_size_spec (n : Nat) (hn : 0 < n) :
    format_file_size 0 = "0B" ∧
    format_file_size 1023 = "1023.0B" ∧
    format_file_size 1024 = "1.0KB" ∧
    format_file_size 1048576 = "1.0MB" ∧
    unitIndex n ≤ 3 ∧
    format_file_size n =
      formatOneDecimal ((n : ℚ) / 1024 ^ unitIndex n) ++
        size_names.getD (unitIndex n) "" := by
  refine ⟨by decide, by decide, by decide, by decide, ?_, ?_⟩
  · unfold unitIndex
    split_ifs <;> omega
  · simp only [format_file_size, if_neg (by omega : ¬ n = 0)]
    rw [format_loop_spec n hn]

/-- C2 witness: the closed form evaluated at the concrete byte count
1536 (= "1.5KB"). -/
theorem c2_format_file_size_spec_witness :
    0 < 1536 ∧
    (format_file_size 0 = "0B" ∧
     format_file_size 1023 = "1023.0B" ∧
     format_file_size 1024 = "1.0KB" ∧
     format_file_size 1048576 = "1.0MB" ∧
     unitIndex 1536 ≤ 3 ∧
     format_file_size 1536 =
       formatOneDecimal ((1536 : ℚ) / 1024 ^ unitIndex 1536) ++
         size_names.getD (unitIndex 1536) "") :=
  ⟨by decide, c2_format_file_size_spec 1536 (by decide)⟩

/-- The `[]` pattern of the matcher: the empty pattern matches exactly the
empty subject. -/
theorem likeMatch_nil (s : List Char) : likeMatch [] s = s.isEmpty := rfl

/-- The `%` wildcard tries every suffix of the subject. -/
theorem likeMatch_pct (ps s : List Char) :
    likeMatch ('%' :: ps) s = s.tails.any fun s2 => likeMatch ps s2 := rfl

/-- A non-wildcard pattern head never matches the empty subject. -/
theorem likeMatch_lit_nil (c : Char) (ps : List Char)
    (hc1 : c ≠ '%') (hc2 : c ≠ '_') :
    likeMatch (c :: ps) [] = false := by
  rw [likeMatch.eq_def]
  split <;> simp_all

/-- A non-wildcard, non-escape pattern head matches exactly itself. -/
theorem likeMatch_lit_cons (c d : Char) (ps s2 : List Char)
    (hc1 : c ≠ '%') (hc2 : c ≠ '_') (hc3 : c ≠ '\\') :
    likeMatch (c :: ps) (d :: s2) = ((c == d) && likeMatch ps s2) := by
  rw [likeMatch.eq_def]
  split <;> simp_all

/-- `%`-headed patterns match a subject iff the rest matches some suffix. -/
theorem likeMatch_pct_iff (ps s : List Char) :
    likeMatch ('%' :: ps) s = true ↔ ∃ s2, s2 <:+ s ∧ likeMatch ps s2 = true := by
  rw [likeMatch_pct, List.any_eq_true]
  simp [List.mem_tails]

/-- The pattern consisting of a single `%` matches everything. -/
theorem likeMatch_pct_univ (s : List Char) : likeMatch ['%'] s = true := by
  rw [likeMatch_pct, List.any_eq_true]
  exact ⟨[], (List.mem_tails _ _).mpr List.nil_suffix, rfl⟩

/-- A block of literal (wildcard- and escape-free) pattern characters
consumes exactly itself from the front of the subject. -/
theorem likeMatch_append_lit (t : List Char)
    (ht : ∀ c ∈ t, c ≠ '%' ∧ c ≠ '_' ∧ c ≠ '\\') (ps s : List Char) :
    likeMatch (t ++ ps) s = true ↔ ∃ s2, s = t ++ s2 ∧ likeMatch ps s2 = true := by
  induction t generalizing s with
  | nil => simp
  | cons c t ih =>
    obtain ⟨hc1, hc2, hc3⟩ := ht c (List.mem_cons_self c t)
    have ht2 : ∀ x ∈ t, x ≠ '%' ∧ x ≠ '_' ∧ x ≠ '\\' :=
      fun x hx => ht x (List.mem_cons_of_mem c hx)
    cases s with
    | nil =>
      rw [List.cons_append, likeMatch_lit_nil c (t ++ ps) hc1 hc2]
      simp
    | cons d s2 =>
      rw [List.cons_append, likeMatch_lit_cons c d (t ++ ps) s2 hc1 hc2 hc3]
      rw [Bool.and_eq_true, beq_iff_eq, ih ht2 s2]
      constructor
      · rintro ⟨rfl, s3, rfl, h3⟩
        exact ⟨s3, rfl, h3⟩
      · rintro ⟨s3, heq, h3⟩
        rw [List.cons_append] at heq
        injection heq with h1 h2
        exact ⟨h1.symm, s3, h2, h3⟩

/-- For a wildcard- and escape-free middle `t`, the pattern `%t%` matches a
subject exactly when `t` occurs in it as a contiguous sublist. -/
theorem likeMatch_infix_iff (t s : List Char)
    (ht : ∀ c ∈ t, c ≠ '%' ∧ c ≠ '_' ∧ c ≠ '\\') :
    likeMatch ('%' :: (t ++ ['%'])) s = true ↔ t <:+: s := by
  rw [likeMatch_pct_iff]
  constructor
  · rintro ⟨s2, hsuf, h⟩
    rw [likeMatch_append_lit t ht ['%'] s2] at h
    obtain ⟨s3, rfl, -⟩ := h
    obtain ⟨s1, rfl⟩ := hsuf
    exact ⟨s1, s3, by simp⟩
  · rintro ⟨u, v, rfl⟩
    refine ⟨t ++ v, ?_, ?_⟩
    · rw [List.append_assoc]
      exact List.suffix_append u (t ++ v)
    · rw [likeMatch_append_lit t ht ['%'] (t ++ v)]
      exact ⟨v, rfl, likeMatch_pct_univ v⟩

/-- `Char.toLower` only ever produces characters in the range 97-122 when
it changes its input, so a character below code point 97 (such as the
`LIKE` metacharacters) can only be hit by itself. -/
theorem toLower_eq_of_lt97 (c m : Char) (hm : m.toNat < 97)
    (heq : c.toLower = m) : c = m := by
  simp only [Char.toLower] at heq
  split at heq
  · next hc =>
    obtain ⟨h1, h2⟩ := hc
    generalize c.toNat = n at h1 h2 heq
    interval_cases n <;> (rw [← heq] at hm; exact absurd hm (by decide))
  · exact heq

/-- Lower-casing keeps a character distinct from the `LIKE`
metacharacters. -/
theorem toLower_preserves_nonmeta (c : Char)
    (h : c ≠ '%' ∧ c ≠ '_' ∧ c ≠ '\\') :
    c.toLower ≠ '%' ∧ c.toLower ≠ '_' ∧ c.toLower ≠ '\\' := by
  refine ⟨fun he => h.1 ?_, fun he => h.2.1 ?_, fun he => h.2.2 ?_⟩
  · exact toLower_eq_of_lt97 c '%' (by decide) he
  · exact toLower_eq_of_lt97 c '_' (by decide) he
  · exact toLower_eq_of_lt97 c '\\' (by decide) he

/-- For a wildcard-free search term, `LIKE '%term%'` under the
case-insensitive collation is exactly case-insensitive substring
containment. -/
theorem sqlLike_wrapped_eq_containsCI (term subject : String)
    (ht : NoWildcard term) :
    sqlLike ("%" ++ term ++ "%") subject = containsCI subject term := by
  have htl : Char.toLower '%' = '%' := by decide
  have hlist : ("%" ++ term ++ "%").toList.map Char.toLower
      = '%' :: ((term.toList.map Char.toLower) ++ ['%']) := by
    simp [String.toList, String.data_append, htl]
  have hmeta : ∀ c ∈ term.toList.map Char.toLower,
      c ≠ '%' ∧ c ≠ '_' ∧ c ≠ '\\' := by
    intro c hc
    rw [List.mem_map] at hc
    obtain ⟨c0, hc0, rfl⟩ := hc
    exact toLower_preserves_nonmeta c0 (ht c0 hc0)
  rw [sqlLike, hlist, containsCI, Bool.eq_iff_iff]
  rw [likeMatch_infix_iff _ _ hmeta]
  simp

/-- C6 counterexample: with one stored row named "abc" (content "q"), the
term "a_c" makes `search_files` return that row — the unescaped `_` acts
as a single-character wildcard inside `LIKE` — although neither the name
nor the content contains "a_c" as a (case-insensitive) substring, so the
output differs from the spec-described search. -/
theorem c6_counterexample_wildcard_term :
    (search_files c6DB "a_c").length = 1 ∧
    containsCI c6Row.name "a_c" = false ∧
    containsCI c6Row.content "a_c" = false ∧
    search_files c6DB "a_c" ≠ search_files_spec c6DB "a_c" := by decide

/-- C6 (amended): for every search term free of the `LIKE` metacharacters
`%`, `_` and `\`, `search_files` returns exactly the rows whose name or
content contains the term as a case-insensitive substring (it equals the
spec-side search), ordered by creation time descending like the listing,
and every returned row is the projection of a matching stored row. -/
theorem c6_search_plain_term_ci_substring (db : FilesDB) (term : String)
    (ht : NoWildcard term) :
    search_files db term = search_files_spec db term ∧
    List.Sorted (fun a b : SearchRow => b.date_created ≤ a.date_created)
      (search_files db term) ∧
    ∀ x ∈ search_files db term, ∃ r ∈ db.rows,
      (containsCI r.name term || containsCI r.content term) = true ∧
      x = searchRowOfRow r := by
  have hfeq : (db.rows.filter fun r =>
        sqlLike ("%" ++ term ++ "%") r.name ||
        sqlLike ("%" ++ term ++ "%") r.content)
      = db.rows.filter fun r =>
        containsCI r.name term || containsCI r.content term := by
    apply List.filter_congr
    intro r _
    rw [sqlLike_wrapped_eq_containsCI term r.name ht,
      sqlLike_wrapped_eq_containsCI term r.content ht]
  refine ⟨?_, ?_, ?_⟩
  · rw [search_files, search_files_spec, hfeq]
  · have hs := List.sorted_insertionSort dateDescRel (db.rows.filter fun r =>
      sqlLike ("%" ++ term ++ "%") r.name ||
      sqlLike ("%" ++ term ++ "%") r.content)
    exact List.Pairwise.map searchRowOfRow (fun a b h => h) hs
  · intro x hx
    simp only [search_files, orderByDateDesc, List.mem_map,
      List.mem_insertionSort, List.mem_filter] at hx
    obtain ⟨r, ⟨hr, hp⟩, rfl⟩ := hx
    refine ⟨r, hr, ?_, rfl⟩
    rw [← sqlLike_wrapped_eq_containsCI term r.name ht,
      ← sqlLike_wrapped_eq_containsCI term r.content ht]
    exact hp

/-- C6 (amended) witness: the wildcard-free term "LL" finds the sample row
through the case-insensitive match on its content "hello". -/
theorem c6_search_plain_term_ci_substring_witness :
    NoWildcard "LL" ∧
    search_files sampleDB "LL" = search_files_spec sampleDB "LL" ∧
    List.Sorted (fun a b : SearchRow => b.date_created ≤ a.date_created)
      (search_files sampleDB "LL") :=
  ⟨by decide,
   (c6_search_plain_term_ci_substring sampleDB "LL" (by decide)).1,
   (c6_search_plain_term_ci_substring sampleDB "LL" (by decide)).2.1⟩

end Rqda
